import Mathlib

/-!
Shallow embedding of the regime-classification and series-synthesis engine of
`sector_flow_model.py` (metamacro-dashboard).

Conventions of the embedding:
* Prices are exact rationals (`ℚ`); the pandas code works on float64, but every
  claim under study is about comparisons, branch order and structural
  presence/absence of rows, which exact arithmetic models faithfully.
* An un-timestamped series (as consumed by the per-bar classifiers) is a
  `List Bar`, positional, in chronological order.
* A timestamped series (as consumed by the series-algebra helpers) is a
  `List (Nat × Bar)`: an association list timestamp → bar, kept sorted strictly
  ascending with no duplicate timestamps as the repository's data model states.
* A pandas rolling window with the default `min_periods = window` yields NA
  until the window is full; we model an NA cell as `Option.none`.
  The float comparison `NaN > x` is false; `optGT`/`optLT` model that.
* The macro label strings "Strong Bull", "Weak Bull", "Strong Bear",
  "Weak Bear", "Neutral" are modelled by the closed enumeration `MacroLabel`
  (the Python `"Bull" in macro` test corresponds to `MacroLabel.isBull`,
  `"Bear" in macro` to `MacroLabel.isBear`); micro and transition labels
  likewise.  The Lean identifiers differ from the Python names only where the
  verification toolchain refuses the literal name.
-/

structure Bar where
  o : ℚ
  h : ℚ
  l : ℚ
  c : ℚ
deriving Repr, DecidableEq

/-- Macro regime label, the closed enumeration behind the strings returned by
`_classify_macro`. -/
inductive MacroLabel where
  | strongBull
  | weakBull
  | strongBear
  | weakBear
  | neutral
deriving Repr, DecidableEq

/-- Model of `"Bull" in macro` on the label strings. -/
def MacroLabel.isBull : MacroLabel → Bool
  | .strongBull => true
  | .weakBull => true
  | _ => false

/-- Model of `"Bear" in macro` on the label strings. -/
def MacroLabel.isBear : MacroLabel → Bool
  | .strongBear => true
  | .weakBear => true
  | _ => false

/-- Micro label: "Micro Bull+", "Micro Bull", "Micro Bear", "Neutral". -/
inductive MicroLabel where
  | bullPlus
  | bull
  | bear
  | neutral
deriving Repr, DecidableEq

/-- Transition label: the four "Approaching …" strings and "None". -/
inductive TransitionLabel where
  | apprWeakBull
  | apprStrongBull
  | apprWeakBear
  | apprStrongBear
  | nolabel
deriving Repr, DecidableEq

/-- Model of `_classify_macro(close, hi, lo, mid)` of `sector_flow_model.py`
(lines 191–200), branch for branch. -/
def classifyMacroFn (close hi lo mid : ℚ) : MacroLabel :=
  if close > mid ∧ close > hi then .strongBull
  else if close > mid then .weakBull
  else if close < mid ∧ close < lo then .strongBear
  else if close < mid then .weakBear
  else .neutral

/-- Float comparison `a > b` where either side may be NaN (pandas NA):
any comparison with NaN is false. -/
def optGT : Option ℚ → Option ℚ → Bool
  | some a, some b => a > b
  | _, _ => false

/-- Float comparison `a < b` where either side may be NaN. -/
def optLT : Option ℚ → Option ℚ → Bool
  | some a, some b => a < b
  | _, _ => false

/-- Model of `series.rolling(n).mean().iloc[-1]`: the mean of the last `n` entries,
NA (`none`) while fewer than `n` entries exist (`min_periods` defaults to the
window length). -/
def lastSMA (n : ℕ) (xs : List ℚ) : Option ℚ :=
  if xs.length < n ∨ n = 0 then none
  else some ((xs.drop (xs.length - n)).sum / n)

/-- Model of `_classify_micro(df, fast_len, slow_len, macro)` (lines 203–210): `closes`
is the close column of the prefix dataframe handed in by the callers. -/
def classifyMicroFn (closes : List ℚ) (fastLen slowLen : ℕ) (mac : MacroLabel) :
    MicroLabel :=
  let fast := lastSMA fastLen closes
  let slow := lastSMA slowLen closes
  if mac.isBull then (if optGT fast slow then .bullPlus else .bear)
  else if mac.isBear then (if optLT fast slow then .bear else .bull)
  else .neutral

/-- Model of `_classify_transition(close, hi, lo, mid, atr_val, near_thresh_atr)`
(lines 213–226), branch for branch. -/
def classifyTransitionFn (close hi lo mid atrVal thresh : ℚ) : TransitionLabel :=
  if atrVal ≤ 0 then .nolabel
  else
    let distHi := (hi - close) / atrVal
    let distLo := (close - lo) / atrVal
    if close < hi ∧ close > mid ∧ distHi < thresh then .apprWeakBull
    else if close > hi ∧ distHi < thresh then .apprStrongBull
    else if close > lo ∧ close < mid ∧ distLo < thresh then .apprWeakBear
    else if close < lo ∧ distLo < thresh then .apprStrongBear
    else .nolabel

/-- Largest element of a list, `none` on the empty list (pandas `max` of an
empty window is NA). -/
def listMax : List ℚ → Option ℚ
  | [] => none
  | x :: xs => some (match listMax xs with
      | none => x
      | some m => max x m)

/-- Smallest element of a list, `none` on the empty list. -/
def listMin : List ℚ → Option ℚ
  | [] => none
  | x :: xs => some (match listMin xs with
      | none => x
      | some m => min x m)

/-- The trailing window of width `w` ending at index `i` (inclusive):
entries `i+1-w … i` of `xs`. -/
def windowSlice (w : ℕ) (xs : List ℚ) (i : ℕ) : List ℚ :=
  (xs.take (i + 1)).drop (i + 1 - w)

/-- Model of `xs.rolling(w).max()` evaluated at index `i`: NA until `w` observations
exist. -/
def rollMax (w : ℕ) (xs : List ℚ) (i : ℕ) : Option ℚ :=
  if i + 1 < w then none else listMax (windowSlice w xs i)

/-- Model of `xs.rolling(w).min()` evaluated at index `i`. -/
def rollMin (w : ℕ) (xs : List ℚ) (i : ℕ) : Option ℚ :=
  if i + 1 < w then none else listMin (windowSlice w xs i)

/-- True range of bar `i` as built by `atr` (lines 37–45): `high - low` in
absolute value, and from bar 1 on also `|high - prev_close|` and
`|low - prev_close|` (for bar 0 those two are NA and the row-max skips them). -/
def trueRanges (df : List Bar) : List ℚ :=
  (List.range df.length).map fun i =>
    let b := df.getD i ⟨0, 0, 0, 0⟩
    if i = 0 then |b.h - b.l|
    else
      let pc := (df.getD (i - 1) ⟨0, 0, 0, 0⟩).c
      max |b.h - b.l| (max |b.h - pc| |b.l - pc|)

/-- Model of `tr.rolling(period, min_periods=1).mean()`: the shrinking-window trailing
mean of the true ranges, defined from bar 0 on. -/
def atrList (df : List Bar) (period : ℕ) : List ℚ :=
  let trs := trueRanges df
  (List.range df.length).map fun i =>
    let w := windowSlice period trs i
    w.sum / w.length

/-- One classified output row of the regime classifiers (`Macro`, `Micro`,
`Transition`, `Close`, `Hi`, `Lo`, `Mid`). -/
structure RegimeRow where
  mac : MacroLabel
  mic : MicroLabel
  tr : TransitionLabel
  close : ℚ
  hi : ℚ
  lo : ℚ
  mid : ℚ
deriving Repr, DecidableEq

/-- The shared per-bar body of `classify_regime` / `classify_weekly_regime`
(lines 238–246 and 259–267): NA row (`none`) while the `window`-bar rolling
hi/lo is NA, otherwise the classified row. -/
def classifyRow (window : ℕ) (atrLen : ℕ) (df : List Bar) (i : ℕ) :
    Option RegimeRow :=
  let highs := df.map (·.h)
  let lows := df.map (·.l)
  let closes := df.map (·.c)
  match rollMax window highs i, rollMin window lows i with
  | some hi, some lo =>
    let mid := (hi + lo) / 2
    let close := closes.getD i 0
    let mac := classifyMacroFn close hi lo mid
    let mic := classifyMicroFn (closes.take (i + 1)) 5 10 mac
    let trans := classifyTransitionFn close hi lo mid ((atrList df atrLen).getD i 0) (1/2)
    some ⟨mac, mic, trans, close, hi, lo, mid⟩
  | _, _ => none

/-- Model of `classify_regime(df, atr_len=20)` (lines 229–247): yearly regime with the
28-bar opening range (`YEARLY_RANGE_DAYS = 28`).  An NA output row of the
dataframe is `none`. -/
def classify_regime (df : List Bar) (atrLen : ℕ) : List (Option RegimeRow) :=
  (List.range df.length).map (classifyRow 28 atrLen df)

/-- Model of `classify_weekly_regime(df, atr_len=14)` (lines 250–268): 5-bar opening
range. -/
def classify_weekly_regime (df : List Bar) (atrLen : ℕ) : List (Option RegimeRow) :=
  (List.range df.length).map (classifyRow 5 atrLen df)

/-- Model of `classify_daily_regime(df, atr_len=14)` (lines 271–286): 1-bar opening
range; the NA branch is absent in the source, every bar is classified. -/
def classify_daily_regime (df : List Bar) (atrLen : ℕ) : List RegimeRow :=
  (List.range df.length).map fun i =>
    let b := df.getD i ⟨0, 0, 0, 0⟩
    let hi := b.h
    let lo := b.l
    let mid := (hi + lo) / 2
    let close := b.c
    let mac := classifyMacroFn close hi lo mid
    let mic := classifyMicroFn ((df.map (·.c)).take (i + 1)) 5 10 mac
    let trans := classifyTransitionFn close hi lo mid ((atrList df atrLen).getD i 0) (1/2)
    ⟨mac, mic, trans, close, hi, lo, mid⟩

/-! ### Series algebra on timestamped series

A timestamped series is an association list timestamp → bar; timestamps are
minutes (ℕ).  The repository's data model requires strictly ascending,
duplicate-free timestamps; theorems that need those facts take them as
hypotheses. -/

abbrev Series := List (ℕ × Bar)

/-- The index (timestamp column) of a series. -/
def seriesIndex (s : Series) : List ℕ := s.map (·.1)

/-- Model of `df.loc[t]` on any timestamp-keyed frame: the row stored at timestamp
`t`, if any. -/
def keyedLookup {β : Type _} (s : List (ℕ × β)) (t : ℕ) : Option β :=
  (s.find? fun p => p.1 == t).map (·.2)

/-- Model of `df.loc[t]`: the bar stored at timestamp `t`, if any. -/
def lookupBar (s : Series) (t : ℕ) : Option Bar :=
  keyedLookup s t

/-- Model of `a.intersection(b)` on indices: the elements of `a` also present in `b`
(pandas keeps the caller's order). -/
def interIndex (a b : List ℕ) : List ℕ := a.filter fun t => b.contains t

/-- Model of `resync_index(dfs)` (lines 48–56): the common index across the non-empty
members, `[]` when no member is non-empty. -/
def resync_index (dfs : List Series) : List ℕ :=
  match (dfs.filter fun d => !d.isEmpty).map seriesIndex with
  | [] => []
  | i0 :: rest => rest.foldl interIndex i0

/-- Model of `df.reindex(idx).dropna()`: restrict a series to the timestamps of `idx`
that it actually has, in the order of `idx`. -/
def alignTo (s : Series) (idx : List ℕ) : Series :=
  idx.filterMap fun t => (lookupBar s t).map fun b => (t, b)

/-- Model of `normalize_ohlc(df, base)` (lines 59–65): rescale so the first close
equals `base`; scale 1 when the first close is zero. -/
def normalize_ohlc (s : Series) (base : ℚ) : Series :=
  match s with
  | [] => []
  | (_, b0) :: _ =>
    let scale := if b0.c ≠ 0 then base / b0.c else 1
    s.map fun p => (p.1, ⟨p.2.o * scale, p.2.h * scale, p.2.l * scale, p.2.c * scale⟩)

/-- Model of `ohlc_divide(numer, denom)` (lines 92–102): align to the intersection of
the indices; a zero in any denominator field becomes NA (`replace(0, nan)`),
and `(n / d).dropna()` then drops the whole bar. -/
def ohlc_divide (numer denom : Series) : Series :=
  if numer.isEmpty ∨ denom.isEmpty then []
  else
    (interIndex (seriesIndex numer) (seriesIndex denom)).filterMap fun t =>
      match lookupBar numer t, lookupBar denom t with
      | some n, some d =>
        if d.o = 0 ∨ d.h = 0 ∨ d.l = 0 ∨ d.c = 0 then none
        else some (t, ⟨n.o / d.o, n.h / d.h, n.l / d.l, n.c / d.c⟩)
      | _, _ => none

/-- Arithmetic mean of a list of rationals (`mean(axis=1)` over the members
present on a row). -/
def avgQ (xs : List ℚ) : ℚ := xs.sum / xs.length

/-- Field-wise arithmetic mean of a list of bars. -/
def avgBar (bs : List Bar) : Bar :=
  ⟨avgQ (bs.map (·.o)), avgQ (bs.map (·.h)), avgQ (bs.map (·.l)), avgQ (bs.map (·.c))⟩

/-- Sorted duplicate-free union of the frames' indices: the index produced by
`pd.concat(frames, axis=1)` (an outer join). -/
def unionIndex (frames : List Series) : List ℕ :=
  List.insertionSort (· ≤ ·) ((frames.map seriesIndex).flatten.dedup)

/-- The equal-weight row at timestamp `t`: the field-wise mean over the frames
that have a bar at `t` (`mean(axis=1)` skips NA cells); NA — and hence dropped
by the final `dropna()` — only when no frame has the row. -/
def ewAt (frames : List Series) (t : ℕ) : Option Bar :=
  match frames.filterMap fun f => lookupBar f t with
  | [] => none
  | present => some (avgBar present)

/-- Model of `ew_index_from_members(ohlc_members, base)` (lines 68–89).  Note the
source reindexes members to the common index only when that index is
non-empty; when the intersection is empty the un-aligned members are
normalized and merged as they are. -/
def ew_index_from_members (members : List Series) (base : ℚ) : Series :=
  let ms := members.filter fun v => !v.isEmpty
  if ms.isEmpty then []
  else
    let common := resync_index ms
    let frames := ms.map fun df =>
      normalize_ohlc (if common.isEmpty then df else alignTo df common) base
    (unionIndex frames).filterMap fun t => (ewAt frames t).map fun b => (t, b)

/-! ### Geometric composite

`build_yahoo_composite` (lines 157–185) first fetches the four benchmark
tickers (with fallbacks) from the network; that acquisition step is external.
The composite arithmetic applied to the fetched member frames (lines
170–185) is embedded here over given members.  Member prices are exact
rationals; only the final `np.exp(np.log(cols).mean(axis=1))` leaves ℚ, and
its IEEE-754 behaviour on non-positive inputs is modelled explicitly:
`np.log` of a negative number is NaN (and `mean(axis=1)` skips NaN by
default), `np.log 0` is `-inf` (and a mean involving `-inf` is `-inf`, with
`np.exp (-inf) = 0.0`), and a mean over no values is NaN (so `np.exp` gives
NaN and the final `dropna()` drops the row). -/

structure RBar where
  o : ℝ
  h : ℝ
  l : ℝ
  c : ℝ

/-- One field of the geometric composite at one bar, from the member values
for that field: `np.exp(np.log(vals).mean())` with the IEEE-754 conventions
listed above. -/
noncomputable def geoField (vals : List ℚ) : Option ℝ :=
  let nn := vals.filter fun v => decide (0 ≤ v)
  if nn.isEmpty then none
  else if nn.any fun v => decide (v = 0) then some 0
  else some (Real.exp ((nn.map fun v => Real.log (v : ℝ)).sum / nn.length))

/-- One field of the geometric composite as the (amended) specification words
it: the bar's field is undefined — and the bar dropped — exactly when every
member's value is negative; a member value of exactly zero forces the field
to 0; otherwise the field is the exponential of the arithmetic mean of the
natural logs of the positive members' values. -/
noncomputable def geoFieldSpec (vals : List ℚ) : Option ℝ :=
  if ∀ v ∈ vals, v < 0 then none
  else if 0 ∈ vals then some 0
  else
    let pos := vals.filter fun v => decide (0 < v)
    some (Real.exp ((pos.map fun v => Real.log (v : ℝ)).sum / pos.length))

/-- The composite bar at timestamp `t` (dropped when any field is NaN). -/
noncomputable def geoAt (data : List Series) (t : ℕ) : Option RBar :=
  let valsAt := fun (f : Bar → ℚ) => data.filterMap fun s => (lookupBar s t).map f
  match geoField (valsAt (·.o)), geoField (valsAt (·.h)),
      geoField (valsAt (·.l)), geoField (valsAt (·.c)) with
  | some o, some h, some l, some c => some ⟨o, h, l, c⟩
  | _, _, _, _ => none

/-- The composite arithmetic of `build_yahoo_composite` (lines 170–185) over
the fetched member frames: align to the common index, then per bar and field
`np.exp(np.log(cols).mean(axis=1))`, then `dropna()`. -/
noncomputable def build_yahoo_composite_core (data : List Series) : List (ℕ × RBar) :=
  if data.isEmpty then []
  else (resync_index data).filterMap fun t => (geoAt data t).map fun b => (t, b)

/-- Timestamp lookup in a composite output frame. -/
def lookupR (s : List (ℕ × RBar)) (t : ℕ) : Option RBar :=
  keyedLookup s t

/-! ### Session-specific regimes

`classify_session_regimes` (lines 323–381).  A bar of an intraday series is a
wall-clock timestamp in minutes plus the OHLC data.  The source receives
UTC-naive (or tz-aware) stamps and converts them to the `America/New_York`
wall clock before building the per-session masks; within one daylight-saving
regime that conversion is a fixed-offset bijection that preserves the gap
structure (on which the frequency guard operates) and shifts every
time-of-day by the same amount, so the embedding works directly with the
converted New-York-local timestamps.  `t % 1440` is the local minute of day;
the source's `strftime("%H:%M")` string comparisons are exactly minute-of-day
comparisons. -/

structure TBar where
  t : ℕ
  bar : Bar
deriving Repr, DecidableEq

/-- One session snapshot row of the output frame. -/
structure SessionRow where
  session : String
  close : ℚ
  mac : MacroLabel
  mic : MicroLabel
  tr : TransitionLabel
  hi : ℚ
  lo : ℚ
  mid : ℚ
deriving Repr, DecidableEq

/-- Consecutive gaps of a timestamp list. -/
def gapsOf : List ℕ → List ℕ
  | t0 :: t1 :: rest => (t1 - t0) :: gapsOf (t1 :: rest)
  | _ => []

/-- Model of the guard `pd.infer_freq(df.index) in ("B","D","W","M","Q","A",
None)` (line 336).  Documented pandas behaviour on the inputs this
development uses: an index needs at least 3 stamps; irregular spacing infers
no frequency (`None`, which IS in the tuple); constant spacing of 1440
minutes infers `"D"` (in the tuple); constant spacing of a multiple of 1440
minutes infers an anchored weekly alias (`"W-SUN"` … `"W-SAT"`) or a
multiple-day alias (`"2D"`, …), none of which is the bare `"W"` of the
tuple; constant sub-daily spacing infers an intraday alias (`"H"`, `"T"`,
`"15T"`, …), never in the tuple.  Calendar-pattern frequencies (monthly,
quarterly, annual — irregular gap lists) are conservatively treated as
`None` (guard hit); no theorem below depends on them.  For fewer than 3
stamps `pd.infer_freq` raises, which the source does not catch; those inputs
are outside the modelled domain and are mapped to a guard hit. -/
def sessionGuardHit (ts : List ℕ) : Bool :=
  match ts with
  | t0 :: t1 :: t2 :: rest =>
    let g := t1 - t0
    if (gapsOf (t0 :: t1 :: t2 :: rest)).all fun d => d == g then
      if g == 1440 then true
      else if g % 1440 == 0 && decide (0 < g) then false
      else if decide (0 < g) && decide (g < 1440) then false
      else true
    else true
  | _ => true

/-- The four named session windows, as half-open minute-of-day ranges:
Asia 04:00–05:00, London 09:00–10:00, NY AM 12:00–13:00, NY PM 13:00–14:00
(lines 344–349). -/
def sessionWindows : List (String × ℕ × ℕ) :=
  [("Asia", 240, 300), ("London", 540, 600), ("NY AM", 720, 780), ("NY PM", 780, 840)]

/-- Is the bar's local minute of day inside the half-open window `[s, e)`? -/
def inWindow (s e : ℕ) (b : TBar) : Bool :=
  decide (s ≤ b.t % 1440) && decide (b.t % 1440 < e)

/-- Model of `classify_session_regimes(df, …)` (lines 323–381): empty on an empty
series and on a guard hit; otherwise one snapshot per named session whose
mask selects at least one bar.  The mask collects every bar of the series
whose time of day falls in the window — across all days; `hi`/`lo` are taken
over all of them, `close` is the last of them, the micro averages run over
them, and the transition uses the ATR value at the last bar of the whole
series (`df["ATR"].iloc[-1]`). -/
def classify_session_regimes (df : List TBar) : List SessionRow :=
  if df.isEmpty then []
  else if sessionGuardHit (df.map (·.t)) then []
  else
    let lastAtr := (atrList (df.map (·.bar)) 14).getD (df.length - 1) 0
    sessionWindows.filterMap fun w =>
      let sess := df.filter (inWindow w.2.1 w.2.2)
      match sess with
      | [] => none
      | _ =>
        let hi := ((listMax (sess.map (·.bar.h)))).getD 0
        let lo := ((listMin (sess.map (·.bar.l)))).getD 0
        let mid := (hi + lo) / 2
        let close := (sess.map (·.bar.c)).getLastD 0
        let mac := classifyMacroFn close hi lo mid
        let mic := classifyMicroFn (sess.map (·.bar.c)) 5 10 mac
        let trans := classifyTransitionFn close hi lo mid lastAtr (1/2)
        some ⟨w.1, close, mac, mic, trans, hi, lo, mid⟩

/-- A whole-series session snapshot, as the amended specification words it:
for a named window, collect every bar of the series whose local time of day
falls inside the window — across all days the series covers; if there are
none the session yields no row, otherwise one single row whose `hi`/`lo` are
the max high / min low over all those bars, whose close is the last of them,
whose micro averages run over their closes, and whose transition uses the
ATR at the last bar of the whole series. -/
def specSnapshotFor (df : List TBar) (name : String) (s e : ℕ) : Option SessionRow :=
  let sess := df.filter (inWindow s e)
  if sess.isEmpty then none
  else
    let hi := (listMax (sess.map (·.bar.h))).getD 0
    let lo := (listMin (sess.map (·.bar.l))).getD 0
    let mid := (hi + lo) / 2
    let close := (sess.map (·.bar.c)).getLastD 0
    let mac := classifyMacroFn close hi lo mid
    let mic := classifyMicroFn (sess.map (·.bar.c)) 5 10 mac
    let lastAtr := (atrList (df.map (·.bar)) 14).getD (df.length - 1) 0
    some ⟨name, close, mac, mic, classifyTransitionFn close hi lo mid lastAtr (1/2), hi, lo, mid⟩

/-- Amended-specification session output: at most one snapshot per named
session window, over the whole series. -/
def specSessionSnapshots (df : List TBar) : List SessionRow :=
  sessionWindows.filterMap fun w => specSnapshotFor df w.1 w.2.1 w.2.2

/-! ### Specification-side decision procedures

These three definitions transcribe the specification's §4.4 wording (steps
2–4) rather than the source, for comparison with the embedded code. -/

/-- Step 2 of §4.4 as the spec words it: "if close > mid and close > hi →
StrongBull; else if close > mid → WeakBull; else if close < mid and
close < lo → StrongBear; else if close < mid → WeakBear; else Neutral". -/
def specMacroRule (close hi lo mid : ℚ) : MacroLabel :=
  if close > mid ∧ close > hi then .strongBull
  else if close > mid then .weakBull
  else if close < mid ∧ close < lo then .strongBear
  else if close < mid then .weakBear
  else .neutral

/-- Step 3 of §4.4 as the spec words it: fast 5-bar and slow 10-bar simple
moving averages of close over the bars up to and including the current one
(NA while the window is unfilled; a comparison against NA is false). -/
def specMicroRule (closes : List ℚ) (mac : MacroLabel) : MicroLabel :=
  let fast := lastSMA 5 closes
  let slow := lastSMA 10 closes
  if mac.isBull then (if optGT fast slow then .bullPlus else .bear)
  else if mac.isBear then (if optLT fast slow then .bear else .bull)
  else .neutral

/-- Step 4 of §4.4 as the spec words it: None when ATR ≤ 0, otherwise the
four rules in priority order (a)–(d), first match wins. -/
def specTransitionRule (close hi lo mid atrVal thresh : ℚ) : TransitionLabel :=
  if atrVal ≤ 0 then .nolabel
  else if close < hi ∧ close > mid ∧ (hi - close) / atrVal < thresh then .apprWeakBull
  else if close > hi ∧ (hi - close) / atrVal < thresh then .apprStrongBull
  else if close > lo ∧ close < mid ∧ (close - lo) / atrVal < thresh then .apprWeakBear
  else if close < lo ∧ (close - lo) / atrVal < thresh then .apprStrongBear
  else .nolabel

/-! ### Concrete inputs used by scenario conjuncts, counterexamples and
witnesses -/

/-- The 29-bar scenario of the spec: 28 bars high 10 / low 8, a 29th bar with
high 12, low 8 and a chosen close. -/
def scenarioBars (lastClose : ℚ) : List Bar :=
  (List.replicate 28 ⟨9, 10, 8, 9⟩) ++ [⟨9, 12, 8, lastClose⟩]

/-- A weekly-sampled series (constant 10080-minute spacing) whose bars land
on the 04:30 local wall clock — in real terms, weekly bars stamped 08:30 UTC
during New York daylight-saving time. -/
def weeklySessionDemo : List TBar :=
  [⟨270, ⟨100, 110, 90, 105⟩⟩, ⟨10350, ⟨100, 110, 90, 105⟩⟩, ⟨20430, ⟨100, 110, 90, 105⟩⟩]

/-- A daily-sampled series: constant 1440-minute spacing, midnight-stamped. -/
def dailySessionDemo : List TBar :=
  [⟨0, ⟨100, 110, 90, 105⟩⟩, ⟨1440, ⟨100, 110, 90, 105⟩⟩, ⟨2880, ⟨100, 110, 90, 105⟩⟩]

/-- A regular hourly intraday series covering two days (48 bars).  Each day
has exactly one bar inside the London window (09:00–10:00): bar 9 on day one
(high 20) and bar 33 on day two (high 10). -/
def intraSessionDemo : List TBar :=
  (List.range 48).map fun k => ⟨60 * k, if k = 9 then ⟨9, 20, 8, 9⟩ else ⟨9, 10, 8, 9⟩⟩

/-- Equal-weight counterexample members: two one-bar series with disjoint
timestamps. -/
def ewDemoA : Series := [(0, ⟨1, 2, 3, 4⟩)]

def ewDemoB : Series := [(1, ⟨5, 6, 7, 8⟩)]

/-- Geometric-composite counterexample members: at the common timestamp one
member's fields are all 0, the other's all 4. -/
def geoDemoZero : Series := [(0, ⟨0, 0, 0, 0⟩)]

def geoDemoFour : Series := [(0, ⟨4, 4, 4, 4⟩)]

/-! ### General lemmas about the embedding -/

theorem getD_range_map {α : Type _} (n i : ℕ) (f : ℕ → α) (d : α) :
    ((List.range n).map f).getD i d = if i < n then f i else d := by
  by_cases h : i < n <;>
    simp [List.getD_eq_getElem?_getD, List.getElem?_map, List.getElem?_range, h,
      List.getElem?_eq_none, Nat.le_of_not_lt]

theorem listMax_exists {l : List ℚ} (h : l ≠ []) : ∃ m, listMax l = some m := by
  cases l with
  | nil => exact absurd rfl h
  | cons x xs => exact ⟨_, rfl⟩

theorem listMin_exists {l : List ℚ} (h : l ≠ []) : ∃ m, listMin l = some m := by
  cases l with
  | nil => exact absurd rfl h
  | cons x xs => exact ⟨_, rfl⟩

theorem windowSlice_ne_nil {w : ℕ} {xs : List ℚ} {i : ℕ} (hi : i < xs.length)
    (hw : 1 ≤ w) : windowSlice w xs i ≠ [] := by
  have hlen : (windowSlice w xs i).length = (i + 1) - (i + 1 - w) := by
    simp [windowSlice]
    omega
  intro hnil
  rw [hnil] at hlen
  simp at hlen
  omega

theorem keyedLookup_nil {β : Type _} (t : ℕ) : keyedLookup ([] : List (ℕ × β)) t = none :=
  rfl

theorem keyedLookup_cons {β : Type _} (a t : ℕ) (b : β) (l : List (ℕ × β)) :
    keyedLookup ((a, b) :: l) t = if a = t then some b else keyedLookup l t := by
  by_cases h : a = t
  · subst h
    simp [keyedLookup, List.find?_cons_of_pos]
  · have : ¬((fun p => p.1 == t) ((a, b) : ℕ × β)) = true := by simpa using h
    simp [keyedLookup, List.find?_cons_of_neg _ this, h]

theorem keyedLookup_isSome {β : Type _} (s : List (ℕ × β)) (t : ℕ) :
    (keyedLookup s t).isSome ↔ t ∈ s.map (·.1) := by
  induction s with
  | nil => simp [keyedLookup]
  | cons p ps ih =>
    rcases p with ⟨a, b⟩
    by_cases h : a = t
    · subst h
      simp [keyedLookup_cons]
    · simp [keyedLookup_cons, h, ih, Ne.symm h]

theorem keyedLookup_filterMap_none {β : Type _} (u : List ℕ) (g : ℕ → Option β)
    (t : ℕ) (ht : t ∉ u) :
    keyedLookup (u.filterMap fun s => (g s).map fun b => (s, b)) t = none := by
  induction u with
  | nil => rfl
  | cons s us ih =>
    have hts : s ≠ t := fun h => ht (h ▸ List.mem_cons_self s us)
    have htus : t ∉ us := fun h => ht (List.mem_cons_of_mem s h)
    rw [List.filterMap_cons]
    cases hg : g s with
    | none => exact ih htus
    | some b =>
      simp only [Option.map_some']
      rw [keyedLookup_cons]
      simp [hts, ih htus]

theorem keyedLookup_filterMap {β : Type _} (u : List ℕ) (g : ℕ → Option β) (t : ℕ)
    (hu : u.Nodup) (ht : t ∈ u) :
    keyedLookup (u.filterMap fun s => (g s).map fun b => (s, b)) t = g t := by
  induction u with
  | nil => cases ht
  | cons s us ih =>
    rcases List.nodup_cons.mp hu with ⟨hs, hus⟩
    rw [List.filterMap_cons]
    rcases List.mem_cons.mp ht with rfl | h
    · cases hg : g t with
      | none =>
        simpa [hg] using keyedLookup_filterMap_none us g t hs
      | some b =>
        simp only [Option.map_some']
        rw [keyedLookup_cons]
        simp [hg]
    · have hts : s ≠ t := by
        rintro rfl
        exact hs h
      cases hg : g s with
      | none => exact ih hus h
      | some b =>
        simp only [Option.map_some']
        rw [keyedLookup_cons]
        simp [hts, ih hus h]

theorem mem_keys_filterMap {β : Type _} (u : List ℕ) (g : ℕ → Option β) (t : ℕ) :
    t ∈ (u.filterMap fun s => (g s).map fun b => (s, b)).map (·.1) ↔
      t ∈ u ∧ (g t).isSome := by
  simp only [List.mem_map, List.mem_filterMap]
  constructor
  · rintro ⟨⟨s, b⟩, ⟨a, ha, hmap⟩, h1⟩
    rcases Option.map_eq_some'.mp hmap with ⟨b', hb', hpair⟩
    cases hpair
    cases h1
    exact ⟨ha, by simp [hb']⟩
  · rintro ⟨ht, hg⟩
    rcases Option.isSome_iff_exists.mp hg with ⟨b, hb⟩
    exact ⟨(t, b), ⟨t, ht, by simp [hb]⟩, rfl⟩

theorem mem_interIndex {a b : List ℕ} {t : ℕ} :
    t ∈ interIndex a b ↔ t ∈ a ∧ t ∈ b := by
  simp [interIndex, List.mem_filter, List.elem_iff]

theorem mem_foldl_inter {t : ℕ} (ls : List (List ℕ)) (i0 : List ℕ)
    (h : t ∈ ls.foldl interIndex i0) : t ∈ i0 ∧ ∀ l ∈ ls, t ∈ l := by
  induction ls generalizing i0 with
  | nil => simpa using h
  | cons l ls ih =>
    rcases ih (interIndex i0 l) h with ⟨h1, h2⟩
    rcases mem_interIndex.mp h1 with ⟨hi0, hl⟩
    refine ⟨hi0, ?_⟩
    intro x hx
    rcases List.mem_cons.mp hx with rfl | hx
    · exact hl
    · exact h2 x hx

theorem foldl_inter_nodup (ls : List (List ℕ)) (i0 : List ℕ) (h : i0.Nodup) :
    (ls.foldl interIndex i0).Nodup := by
  induction ls generalizing i0 with
  | nil => simpa using h
  | cons l ls ih => exact ih _ (h.filter _)

theorem mem_resync_index {dfs : List Series} {t : ℕ} (h : t ∈ resync_index dfs) :
    ∀ df ∈ dfs, df.isEmpty = false → t ∈ seriesIndex df := by
  intro df hdf hne
  unfold resync_index at h
  split at h
  · cases h
  · rename_i i0 rest heq
    have hmem : seriesIndex df ∈ (dfs.filter fun d => !d.isEmpty).map seriesIndex :=
      List.mem_map_of_mem _ (List.mem_filter.mpr ⟨hdf, by simp [hne]⟩)
    rw [heq] at hmem
    rcases mem_foldl_inter rest i0 h with ⟨h1, h2⟩
    rcases List.mem_cons.mp hmem with he | hm
    · exact he ▸ h1
    · exact h2 _ hm

theorem resync_index_nodup {dfs : List Series}
    (h : ∀ df ∈ dfs, (seriesIndex df).Nodup) : (resync_index dfs).Nodup := by
  unfold resync_index
  split
  · exact List.nodup_nil
  · rename_i i0 rest heq
    refine foldl_inter_nodup rest i0 ?_
    have : i0 ∈ (dfs.filter fun d => !d.isEmpty).map seriesIndex := by
      rw [heq]; exact List.mem_cons_self _ _
    rcases List.mem_map.mp this with ⟨df, hdf, rfl⟩
    exact h df (List.mem_filter.mp hdf).1

theorem unionIndex_nodup (frames : List Series) : (unionIndex frames).Nodup := by
  have hperm := List.perm_insertionSort (· ≤ ·) ((frames.map seriesIndex).flatten.dedup)
  exact hperm.nodup_iff.mpr (List.nodup_dedup _)

theorem mem_unionIndex {frames : List Series} {t : ℕ} :
    t ∈ unionIndex frames ↔ ∃ f ∈ frames, t ∈ seriesIndex f := by
  have hperm := List.perm_insertionSort (· ≤ ·) ((frames.map seriesIndex).flatten.dedup)
  rw [unionIndex, hperm.mem_iff]
  simp [List.mem_dedup, List.mem_flatten]

theorem seriesIndex_normalize (s : Series) (base : ℚ) :
    seriesIndex (normalize_ohlc s base) = seriesIndex s := by
  cases s with
  | nil => rfl
  | cons p ps =>
    rcases p with ⟨t0, b0⟩
    simp [normalize_ohlc, seriesIndex, List.map_map, Function.comp]

theorem lookupBar_alignTo (s : Series) (idx : List ℕ) (t : ℕ) (hidx : idx.Nodup)
    (ht : t ∈ idx) : lookupBar (alignTo s idx) t = lookupBar s t := by
  unfold alignTo lookupBar
  exact keyedLookup_filterMap idx (fun u => keyedLookup s u) t hidx ht

theorem mem_seriesIndex_alignTo {s : Series} {idx : List ℕ} {t : ℕ} :
    t ∈ seriesIndex (alignTo s idx) ↔ t ∈ idx ∧ t ∈ seriesIndex s := by
  unfold alignTo seriesIndex
  rw [mem_keys_filterMap]
  unfold lookupBar
  rw [keyedLookup_isSome]

theorem classifyRow_isSome {w a : ℕ} {df : List Bar} {i : ℕ} (hw : 1 ≤ w)
    (hi : i < df.length) : (classifyRow w a df i).isSome ↔ w ≤ i + 1 := by
  by_cases h : i + 1 < w
  · simp only [classifyRow, rollMax, rollMin, if_pos h]
    simp
    omega
  · have hmax := listMax_exists
      (windowSlice_ne_nil (show i < (df.map (·.h)).length by simpa using hi) hw)
    have hmin := listMin_exists
      (windowSlice_ne_nil (show i < (df.map (·.l)).length by simpa using hi) hw)
    rcases hmax with ⟨x, hx⟩
    rcases hmin with ⟨y, hy⟩
    simp only [classifyRow, rollMax, rollMin, if_neg h, hx, hy]
    simp
    omega

theorem filterMap_eq_map_of {α β : Type _} (l : List α) (g : α → Option β) (f : α → β)
    (H : ∀ a ∈ l, g a = some (f a)) : l.filterMap g = l.map f := by
  induction l with
  | nil => rfl
  | cons x xs ih =>
    rw [List.filterMap_cons, List.map_cons, H x (List.mem_cons_self x xs),
      ih fun a ha => H a (List.mem_cons_of_mem x ha)]

/-! ### Claim theorems -/

/-- C1: for every classified bar the macro label is decided deterministically
and mutually exclusively, in the spec's exact order, from close and the
rolling hi/lo/mid (conjunct 1: the embedded `_classify_macro` equals the
spec's decision procedure); close exactly equal to mid gives Neutral
(conjunct 2); and in the spec's 29-bar scenario, where the yearly window
gives hi 12, lo 8, mid 10 at the last bar, close 12 classifies WeakBull and
close 12.5 classifies StrongBull (conjuncts 3 and 4). -/
theorem C1_macro_rule_and_scenario :
    (∀ close hi lo mid : ℚ, classifyMacroFn close hi lo mid = specMacroRule close hi lo mid)
    ∧ (∀ hi lo m : ℚ, classifyMacroFn m hi lo m = .neutral)
    ∧ (((classify_regime (scenarioBars 12) 20).getD 28 none).map fun r => (r.mac, r.hi, r.lo, r.mid))
        = some (.weakBull, 12, 8, 10)
    ∧ ((classify_regime (scenarioBars (25/2)) 20).getD 28 none).map (·.mac) = some .strongBull := by
  refine ⟨fun _ _ _ _ => rfl, ?_, ?_, ?_⟩
  · intro hi lo m
    simp [classifyMacroFn, lt_irrefl]
  · set_option maxRecDepth 100000 in with_unfolding_all decide
  · set_option maxRecDepth 100000 in with_unfolding_all decide

/-- C7: the transition label of a classified bar is None whenever the ATR
value is ≤ 0, and otherwise follows the four ATR-distance rules in the
spec's exact priority order, first match wins (conjunct 1: the embedded
`_classify_transition` equals the spec's decision procedure; conjunct 2:
the ATR ≤ 0 guard at ATR = 0; conjuncts 3–6: each of the four rules firing
on a concrete probe input with hi 10, lo 0, mid 5, ATR 1, threshold 0.5). -/
theorem C7_transition_rule_and_probes :
    (∀ close hi lo mid atrVal thresh : ℚ,
        classifyTransitionFn close hi lo mid atrVal thresh
          = specTransitionRule close hi lo mid atrVal thresh)
    ∧ (∀ close hi lo mid thresh : ℚ, classifyTransitionFn close hi lo mid 0 thresh = .nolabel)
    ∧ classifyTransitionFn (49/5) 10 0 5 1 (1/2) = .apprWeakBull
    ∧ classifyTransitionFn (51/5) 10 0 5 1 (1/2) = .apprStrongBull
    ∧ classifyTransitionFn (3/10) 10 0 5 1 (1/2) = .apprWeakBear
    ∧ classifyTransitionFn (-1/5) 10 0 5 1 (1/2) = .apprStrongBear := by
  refine ⟨fun _ _ _ _ _ _ => rfl, ?_, ?_, ?_, ?_, ?_⟩
  · intro c hi lo mid th
    simp [classifyTransitionFn]
  · with_unfolding_all decide
  · with_unfolding_all decide
  · with_unfolding_all decide
  · with_unfolding_all decide

/-- C2: one classified Regime Bar per input bar exactly once the rolling
window is fully populated — for the yearly classifier from the 28th bar,
for the weekly classifier from the 5th bar — with earlier bars absent
(NA, `none`) from the classified output; in particular a series shorter
than 28 bars yields no classified yearly bars at all, while the weekly
timeframe of the same series is unaffected (it classifies any bar index
`i` with `5 ≤ i + 1`, regardless of the yearly window). -/
theorem C2_insufficient_history :
    (∀ (df : List Bar) (atrLen i : ℕ), i < df.length →
        (((classify_regime df atrLen).getD i none).isSome ↔ 28 ≤ i + 1))
    ∧ (∀ (df : List Bar) (atrLen i : ℕ), i < df.length →
        (((classify_weekly_regime df atrLen).getD i none).isSome ↔ 5 ≤ i + 1))
    ∧ (∀ (df : List Bar) (atrLen : ℕ), df.length < 28 →
        ∀ x ∈ classify_regime df atrLen, x = none) := by
  refine ⟨?_, ?_, ?_⟩
  · intro df a i hi
    rw [classify_regime, getD_range_map, if_pos hi]
    exact classifyRow_isSome (by norm_num) hi
  · intro df a i hi
    rw [classify_weekly_regime, getD_range_map, if_pos hi]
    exact classifyRow_isSome (by norm_num) hi
  · intro df a hlen x hx
    rw [classify_regime] at hx
    rcases List.mem_map.mp hx with ⟨i, hi, rfl⟩
    have hi' : i < df.length := List.mem_range.mp hi
    have hns : ¬(classifyRow 28 a df i).isSome = true := by
      rw [classifyRow_isSome (by norm_num) hi']
      omega
    exact Option.not_isSome_iff_eq_none.mp hns

theorem C2_insufficient_history_witness :
    ((4 : ℕ) < (List.replicate 5 (⟨9, 10, 8, 9⟩ : Bar)).length)
    ∧ (((classify_weekly_regime (List.replicate 5 ⟨9, 10, 8, 9⟩) 14).getD 4 none).isSome ↔ 5 ≤ 4 + 1)
    ∧ (((classify_regime (List.replicate 5 ⟨9, 10, 8, 9⟩) 20).getD 0 none).isSome ↔ 28 ≤ 0 + 1) :=
  ⟨by decide, C2_insufficient_history.2.1 _ 14 4 (by decide),
    C2_insufficient_history.1 _ 20 0 (by decide)⟩

/-- C10: while fewer than 10 bars exist up to the classified bar, the slow
10-bar moving average is NA, so both `fast > slow` and `fast < slow` are
false and the micro classifier falls to its else-branches — MicroBear for a
Bull macro, MicroBull for a Bear macro (conjuncts 1 and 2); and the daily
classifier classifies every bar from bar 0 onward (its window is 1), so
those early bars do get these fallback labels rather than being absent
(conjunct 3). -/
theorem C10_micro_fallback :
    (∀ (closes : List ℚ) (mac : MacroLabel), closes.length < 10 → mac.isBull = true →
        classifyMicroFn closes 5 10 mac = .bear)
    ∧ (∀ (closes : List ℚ) (mac : MacroLabel), closes.length < 10 → mac.isBear = true →
        classifyMicroFn closes 5 10 mac = .bull)
    ∧ (∀ (df : List Bar) (atrLen : ℕ), (classify_daily_regime df atrLen).length = df.length) := by
  have hslow : ∀ closes : List ℚ, closes.length < 10 → lastSMA 10 closes = none := by
    intro closes h
    simp [lastSMA, h]
  have hGT : ∀ x : Option ℚ, optGT x none = false := by
    intro x
    cases x <;> rfl
  have hLT : ∀ x : Option ℚ, optLT x none = false := by
    intro x
    cases x <;> rfl
  refine ⟨?_, ?_, ?_⟩
  · intro closes mac hlen hb
    simp [classifyMicroFn, hslow closes hlen, hGT, hb]
  · intro closes mac hlen hb
    have hnb : mac.isBull = false := by
      cases mac <;> simp_all [MacroLabel.isBull, MacroLabel.isBear]
    simp [classifyMicroFn, hslow closes hlen, hLT, hb, hnb]
  · intro df a
    simp [classify_daily_regime]

theorem C10_micro_fallback_witness :
    (([(1 : ℚ)].length < 10) ∧ MacroLabel.isBull .strongBull = true
      ∧ MacroLabel.isBear .weakBear = true)
    ∧ classifyMicroFn [1] 5 10 .strongBull = .bear
    ∧ classifyMicroFn [1] 5 10 .weakBear = .bull :=
  ⟨⟨by decide, by decide, by decide⟩,
    C10_micro_fallback.1 [1] .strongBull (by decide) (by decide),
    C10_micro_fallback.2.1 [1] .weakBear (by decide) (by decide)⟩

/-- C6: for every series X with no zero O/H/L/C value, `divide(X, X)` is the
series on X's full original index with every field equal to 1. -/
theorem C6_divide_self_ones (X : Series)
    (hnz : ∀ p ∈ X, p.2.o ≠ 0 ∧ p.2.h ≠ 0 ∧ p.2.l ≠ 0 ∧ p.2.c ≠ 0) :
    ohlc_divide X X = (seriesIndex X).map fun t => (t, ⟨1, 1, 1, 1⟩) := by
  by_cases hX : X.isEmpty
  · rw [List.isEmpty_iff.mp hX]
    rfl
  · rw [ohlc_divide, if_neg (by simp [hX])]
    have hinter : interIndex (seriesIndex X) (seriesIndex X) = seriesIndex X := by
      refine List.filter_eq_self.mpr fun t ht => ?_
      simpa [List.elem_iff] using ht
    rw [hinter]
    refine filterMap_eq_map_of _ _ _ fun t ht => ?_
    have hsome : (lookupBar X t).isSome := (keyedLookup_isSome X t).mpr ht
    rcases Option.isSome_iff_exists.mp hsome with ⟨b, hb⟩
    have hmem : (t, b) ∈ X := by
      have hb' := hb
      unfold lookupBar keyedLookup at hb'
      rcases Option.map_eq_some'.mp hb' with ⟨q, hq, hq2⟩
      have hqt : q.1 = t := by simpa using List.find?_some hq
      have := List.mem_of_find?_eq_some hq
      rcases q with ⟨qt, qb⟩
      cases hqt
      cases hq2
      exact this
    rcases hnz _ hmem with ⟨ho, hh, hl, hc⟩
    rw [hb]
    simp only [ho, hh, hl, hc, or_self, if_false]
    rw [div_self ho, div_self hh, div_self hl, div_self hc]

theorem C6_divide_self_ones_witness :
    (∀ p ∈ ([(3, ⟨1, 2, 3, 4⟩)] : Series), p.2.o ≠ 0 ∧ p.2.h ≠ 0 ∧ p.2.l ≠ 0 ∧ p.2.c ≠ 0)
    ∧ ohlc_divide [(3, ⟨1, 2, 3, 4⟩)] [(3, ⟨1, 2, 3, 4⟩)] = [(3, ⟨1, 1, 1, 1⟩)] :=
  ⟨by with_unfolding_all decide, by
    have h := C6_divide_self_ones [(3, ⟨1, 2, 3, 4⟩)] (by with_unfolding_all decide)
    simpa [seriesIndex] using h⟩

theorem classifyRow_mic {w a : ℕ} {df : List Bar} {i : ℕ} {r : RegimeRow}
    (h : classifyRow w a df i = some r) :
    r.mic = classifyMicroFn ((df.map (·.c)).take (i + 1)) 5 10 r.mac := by
  dsimp only [classifyRow] at h
  split at h
  · cases h
    rfl
  · cases h

/-- C8: the micro label of every classified bar `i` is computed from the
fast 5-bar and slow 10-bar simple moving averages of close over the bars up
to and including `i` — MicroBullPlus/MicroBear for a Bull macro according to
`fast > slow`, MicroBear/MicroBull for a Bear macro according to
`fast < slow`, Neutral for a Neutral macro (conjunct 1: the embedded
`_classify_micro` equals the spec's rule; conjuncts 2 and 3: every row the
yearly/weekly classifiers emit carries exactly that micro label for its own
close-prefix and macro label). -/
theorem C8_micro_rule :
    (∀ (closes : List ℚ) (mac : MacroLabel),
        classifyMicroFn closes 5 10 mac = specMicroRule closes mac)
    ∧ (∀ (df : List Bar) (atrLen i : ℕ) (r : RegimeRow),
        (classify_regime df atrLen).getD i none = some r →
        r.mic = specMicroRule ((df.map (·.c)).take (i + 1)) r.mac)
    ∧ (∀ (df : List Bar) (atrLen i : ℕ) (r : RegimeRow),
        (classify_weekly_regime df atrLen).getD i none = some r →
        r.mic = specMicroRule ((df.map (·.c)).take (i + 1)) r.mac) := by
  refine ⟨fun _ _ => rfl, ?_, ?_⟩
  · intro df a i r h
    rw [classify_regime, getD_range_map] at h
    by_cases hi : i < df.length
    · rw [if_pos hi] at h
      exact classifyRow_mic h
    · rw [if_neg hi] at h
      cases h
  · intro df a i r h
    rw [classify_weekly_regime, getD_range_map] at h
    by_cases hi : i < df.length
    · rw [if_pos hi] at h
      exact classifyRow_mic h
    · rw [if_neg hi] at h
      cases h

set_option maxRecDepth 1000000 in
theorem C8_micro_rule_witness :
    ((classify_regime (scenarioBars 12) 20).getD 28 none
        = some ⟨.weakBull, .bullPlus, .nolabel, 12, 12, 8, 10⟩)
    ∧ (⟨.weakBull, .bullPlus, .nolabel, 12, 12, 8, 10⟩ : RegimeRow).mic
        = specMicroRule (((scenarioBars 12).map (·.c)).take (28 + 1))
            (⟨.weakBull, .bullPlus, .nolabel, 12, 12, 8, 10⟩ : RegimeRow).mac :=
  ⟨by with_unfolding_all decide,
    C8_micro_rule.2.1 (scenarioBars 12) 20 28 _ (by with_unfolding_all decide)⟩

set_option maxRecDepth 1000000 in
/-- C3 counterexample: on a regular hourly series covering two days, with one
London-window bar on each day, session classification emits the London
session once (not once per day), and the single row's hi is the maximum high
over the London-window bars of both days (20), not of one day's window only
(day two's London high is 10). -/
theorem C3_per_day_counterexample :
    ((classify_session_regimes intraSessionDemo).map (·.session))
        = ["Asia", "London", "NY AM", "NY PM"]
    ∧ (((classify_session_regimes intraSessionDemo).filter
          fun r => r.session == "London").map (·.hi)) = [20]
    ∧ (intraSessionDemo.filter fun b => decide (b.t < 1440) && inWindow 540 600 b).length = 1
    ∧ (intraSessionDemo.filter fun b => decide (1440 ≤ b.t) && inWindow 540 600 b).length = 1
    ∧ listMax ((intraSessionDemo.filter
          fun b => decide (1440 ≤ b.t) && inWindow 540 600 b).map (·.bar.h)) = some 10 := by
  with_unfolding_all decide

/-- C3 amended: for every intraday series accepted by the frequency guard,
session-mode classification produces at most one snapshot per named session
window for the whole series — the row exists precisely when some bar's local
time of day falls in the window, and its hi/lo are the max high / min low
over all such bars across every day the series covers (equality with the
amended specification's snapshot builder), so the output never exceeds four
rows. -/
theorem C3_session_whole_series (df : List TBar) (hne : df.isEmpty = false)
    (hguard : sessionGuardHit (df.map (·.t)) = false) :
    classify_session_regimes df = specSessionSnapshots df
    ∧ (classify_session_regimes df).length ≤ 4 := by
  have heq : classify_session_regimes df = specSessionSnapshots df := by
    unfold classify_session_regimes specSessionSnapshots specSnapshotFor
    rw [if_neg (by simp [hne]), if_neg (by simp [hguard])]
    refine List.filterMap_congr ?_
    intro w hw
    cases hs : df.filter (inWindow w.2.1 w.2.2) with
    | nil => rfl
    | cons p ps => rfl
  refine ⟨heq, ?_⟩
  rw [heq]
  unfold specSessionSnapshots
  calc (sessionWindows.filterMap fun w => specSnapshotFor df w.1 w.2.1 w.2.2).length
      ≤ sessionWindows.length := List.length_filterMap_le _ _
    _ = 4 := rfl

theorem C3_session_whole_series_witness :
    (intraSessionDemo.isEmpty = false
      ∧ sessionGuardHit (intraSessionDemo.map (·.t)) = false)
    ∧ classify_session_regimes intraSessionDemo = specSessionSnapshots intraSessionDemo
    ∧ (classify_session_regimes intraSessionDemo).length ≤ 4 :=
  ⟨⟨by decide, by decide⟩,
    (C3_session_whole_series intraSessionDemo (by decide) (by decide)).1,
    (C3_session_whole_series intraSessionDemo (by decide) (by decide)).2⟩

set_option maxRecDepth 1000000 in
/-- C9: the frequency guard does empty the output on the daily-sampled
series (constant 1440-minute spacing infers "D", which is in the guard
tuple) — but a weekly-sampled series leaks through it: pandas infers an
anchored weekly alias ("W-SUN" … "W-SAT"), never the bare "W" the guard
tuple lists, so a weekly series whose bars land inside a session window
(04:30 New York wall clock here) produces a non-empty session frame, contradicting
both the claim and the source's own comment that daily/weekly frequency
yields no session info. -/
theorem C9_daily_guard_weekly_leak :
    classify_session_regimes dailySessionDemo = []
    ∧ (classify_session_regimes weeklySessionDemo).map (·.session) = ["Asia"]
    ∧ classify_session_regimes weeklySessionDemo ≠ [] := by
  with_unfolding_all decide

theorem ewAt_eq (frames : List Series) (t : ℕ) :
    ewAt frames t = if (frames.filterMap fun f => lookupBar f t) = [] then none
      else some (avgBar (frames.filterMap fun f => lookupBar f t)) := by
  unfold ewAt
  cases h : frames.filterMap fun f => lookupBar f t with
  | nil => simp
  | cons p ps => simp

theorem ew_core_aligned (ms : List Series) (base : ℚ)
    (hfe : ∀ df ∈ ms, df.isEmpty = false) (hms : ms ≠ []) :
    (∀ u : ℕ, u ∈ unionIndex (ms.map fun df =>
        normalize_ohlc (alignTo df (resync_index ms)) base) ↔ u ∈ resync_index ms)
    ∧ (∀ u ∈ resync_index ms,
        ewAt (ms.map fun df => normalize_ohlc (alignTo df (resync_index ms)) base) u
          = some (avgBar (ms.filterMap fun df =>
              lookupBar (normalize_ohlc (alignTo df (resync_index ms)) base) u))) := by
  have humem : ∀ u : ℕ, u ∈ unionIndex (ms.map fun df =>
      normalize_ohlc (alignTo df (resync_index ms)) base) ↔ u ∈ resync_index ms := by
    intro u
    rw [mem_unionIndex]
    constructor
    · rintro ⟨f, hf, huf⟩
      rcases List.mem_map.mp hf with ⟨df, hdf, rfl⟩
      rw [seriesIndex_normalize] at huf
      exact (mem_seriesIndex_alignTo.mp huf).1
    · intro hu
      rcases List.exists_mem_of_ne_nil ms hms with ⟨df0, hdf0⟩
      refine ⟨normalize_ohlc (alignTo df0 (resync_index ms)) base,
        List.mem_map_of_mem _ hdf0, ?_⟩
      rw [seriesIndex_normalize]
      exact mem_seriesIndex_alignTo.mpr ⟨hu, mem_resync_index hu df0 hdf0 (hfe df0 hdf0)⟩
  refine ⟨humem, ?_⟩
  intro u hu
  have hpresent : (ms.map fun df =>
      normalize_ohlc (alignTo df (resync_index ms)) base).filterMap
        (fun f => lookupBar f u) ≠ [] := by
    rcases List.exists_mem_of_ne_nil ms hms with ⟨df0, hdf0⟩
    have hk : u ∈ seriesIndex (normalize_ohlc (alignTo df0 (resync_index ms)) base) := by
      rw [seriesIndex_normalize]
      exact mem_seriesIndex_alignTo.mpr ⟨hu, mem_resync_index hu df0 hdf0 (hfe df0 hdf0)⟩
    have hsome : (lookupBar (normalize_ohlc (alignTo df0 (resync_index ms)) base) u).isSome :=
      (keyedLookup_isSome _ _).mpr hk
    rcases Option.isSome_iff_exists.mp hsome with ⟨b, hb⟩
    intro hnil
    have hbmem : b ∈ (ms.map fun df =>
        normalize_ohlc (alignTo df (resync_index ms)) base).filterMap
          (fun f => lookupBar f u) :=
      List.mem_filterMap.mpr ⟨_, List.mem_map_of_mem _ hdf0, hb⟩
    rw [hnil] at hbmem
    cases hbmem
  rw [ewAt_eq, if_neg hpresent, List.filterMap_map]
  rfl

theorem ew_core_unaligned (ms : List Series) (base : ℚ) :
    (∀ u : ℕ, u ∈ unionIndex (ms.map fun df => normalize_ohlc df base) ↔
        ∃ df ∈ ms, u ∈ seriesIndex df)
    ∧ (∀ u : ℕ, (∃ df ∈ ms, u ∈ seriesIndex df) →
        ewAt (ms.map fun df => normalize_ohlc df base) u
          = some (avgBar (ms.filterMap fun df => lookupBar (normalize_ohlc df base) u))) := by
  have humem : ∀ u : ℕ, u ∈ unionIndex (ms.map fun df => normalize_ohlc df base) ↔
      ∃ df ∈ ms, u ∈ seriesIndex df := by
    intro u
    rw [mem_unionIndex]
    constructor
    · rintro ⟨f, hf, huf⟩
      rcases List.mem_map.mp hf with ⟨df, hdf, rfl⟩
      rw [seriesIndex_normalize] at huf
      exact ⟨df, hdf, huf⟩
    · rintro ⟨df, hdf, hudf⟩
      refine ⟨normalize_ohlc df base, List.mem_map_of_mem _ hdf, ?_⟩
      rw [seriesIndex_normalize]
      exact hudf
  refine ⟨humem, ?_⟩
  rintro u ⟨df0, hdf0, hudf0⟩
  have hpresent : (ms.map fun df => normalize_ohlc df base).filterMap
      (fun f => lookupBar f u) ≠ [] := by
    have hk : u ∈ seriesIndex (normalize_ohlc df0 base) := by
      rw [seriesIndex_normalize]
      exact hudf0
    have hsome : (lookupBar (normalize_ohlc df0 base) u).isSome :=
      (keyedLookup_isSome _ _).mpr hk
    rcases Option.isSome_iff_exists.mp hsome with ⟨b, hb⟩
    intro hnil
    have hbmem : b ∈ (ms.map fun df => normalize_ohlc df base).filterMap
        (fun f => lookupBar f u) :=
      List.mem_filterMap.mpr ⟨_, List.mem_map_of_mem _ hdf0, hb⟩
    rw [hnil] at hbmem
    cases hbmem
  rw [ewAt_eq, if_neg hpresent, List.filterMap_map]
  rfl

set_option maxRecDepth 1000000 in
/-- C4 counterexample: two non-empty members with disjoint timestamps — the
intersection of their indices is empty, yet the equal-weight composite is
NOT the empty series: the source skips the reindexing step when the common
index is empty, so the normalized members are merged as they are and the
output covers the union of their timestamps. -/
theorem C4_ew_empty_intersection_counterexample :
    resync_index ([ewDemoA, ewDemoB].filter fun v => !v.isEmpty) = []
    ∧ ew_index_from_members [ewDemoA, ewDemoB] 100
        = [(0, ⟨25, 50, 75, 100⟩), (1, ⟨125/2, 75, 175/2, 100⟩)]
    ∧ ew_index_from_members [ewDemoA, ewDemoB] 100 ≠ [] := by
  with_unfolding_all decide

/-- C4 amended: the equal-weight composite is empty when no member is
non-empty (conjunct 1); when the non-empty members' common index is
non-empty, the output is built on exactly that intersection, each member
aligned to it and normalized to the common base, and each bar is the
field-wise arithmetic mean across the members (conjunct 2); but when the
intersection is empty (and some member is non-empty) the output is NOT
empty: the members are merged un-aligned, the output covers the union of
their timestamps, and each bar is the field-wise mean across the members
that have that timestamp, each normalized by its own first close
(conjunct 3). -/
theorem C4_ew_composite_amended :
    (∀ (members : List Series) (base : ℚ),
        (members.filter fun v => !v.isEmpty) = [] →
        ew_index_from_members members base = [])
    ∧ (∀ (members : List Series) (base : ℚ) (t : ℕ),
        resync_index (members.filter fun v => !v.isEmpty) ≠ [] →
        ((t ∈ seriesIndex (ew_index_from_members members base) ↔
            t ∈ resync_index (members.filter fun v => !v.isEmpty))
          ∧ (t ∈ resync_index (members.filter fun v => !v.isEmpty) →
              lookupBar (ew_index_from_members members base) t =
                some (avgBar ((members.filter fun v => !v.isEmpty).filterMap fun df =>
                  lookupBar (normalize_ohlc (alignTo df
                    (resync_index (members.filter fun v => !v.isEmpty))) base) t)))))
    ∧ (∀ (members : List Series) (base : ℚ) (t : ℕ),
        (members.filter fun v => !v.isEmpty) ≠ [] →
        resync_index (members.filter fun v => !v.isEmpty) = [] →
        ((t ∈ seriesIndex (ew_index_from_members members base) ↔
            ∃ df ∈ members.filter fun v => !v.isEmpty, t ∈ seriesIndex df)
          ∧ ((∃ df ∈ members.filter fun v => !v.isEmpty, t ∈ seriesIndex df) →
              lookupBar (ew_index_from_members members base) t =
                some (avgBar ((members.filter fun v => !v.isEmpty).filterMap fun df =>
                  lookupBar (normalize_ohlc df base) t))))) := by
  refine ⟨?_, ?_, ?_⟩
  · intro members base h
    simp [ew_index_from_members, h]
  · intro members base t hcom
    have hms : (members.filter fun v => !v.isEmpty) ≠ [] := by
      intro h
      apply hcom
      rw [h]
      rfl
    have hfe : ∀ df ∈ members.filter fun v => !v.isEmpty, df.isEmpty = false := by
      intro df hdf
      simpa using (List.mem_filter.mp hdf).2
    have hcomE : (resync_index (members.filter fun v => !v.isEmpty)).isEmpty = false := by
      simpa [List.isEmpty_iff] using hcom
    have hew : ew_index_from_members members base =
        (unionIndex ((members.filter fun v => !v.isEmpty).map fun df =>
            normalize_ohlc (alignTo df
              (resync_index (members.filter fun v => !v.isEmpty))) base)).filterMap
          fun u => (ewAt ((members.filter fun v => !v.isEmpty).map fun df =>
            normalize_ohlc (alignTo df
              (resync_index (members.filter fun v => !v.isEmpty))) base) u).map
            fun b => (u, b) := by
      dsimp only [ew_index_from_members]
      rw [if_neg (by simp [hms])]
      simp only [hcomE, Bool.false_eq_true, if_false]
    rcases ew_core_aligned (members.filter fun v => !v.isEmpty) base hfe hms with
      ⟨humem, hval⟩
    constructor
    · rw [hew]
      unfold seriesIndex
      rw [mem_keys_filterMap]
      constructor
      · rintro ⟨hu, _⟩
        exact (humem t).mp hu
      · intro ht
        refine ⟨(humem t).mpr ht, ?_⟩
        rw [hval t ht]
        rfl
    · intro ht
      rw [hew]
      unfold lookupBar
      rw [keyedLookup_filterMap _ _ _ (unionIndex_nodup _) ((humem t).mpr ht)]
      exact hval t ht
  · intro members base t hms hcom
    have hcomE : (resync_index (members.filter fun v => !v.isEmpty)).isEmpty = true := by
      simp [List.isEmpty_iff, hcom]
    have hew : ew_index_from_members members base =
        (unionIndex ((members.filter fun v => !v.isEmpty).map fun df =>
            normalize_ohlc df base)).filterMap
          fun u => (ewAt ((members.filter fun v => !v.isEmpty).map fun df =>
            normalize_ohlc df base) u).map fun b => (u, b) := by
      dsimp only [ew_index_from_members]
      rw [if_neg (by simp [hms])]
      simp only [hcomE, if_true]
    rcases ew_core_unaligned (members.filter fun v => !v.isEmpty) base with ⟨humem, hval⟩
    constructor
    · rw [hew]
      unfold seriesIndex
      rw [mem_keys_filterMap]
      constructor
      · rintro ⟨hu, _⟩
        exact (humem t).mp hu
      · intro ht
        refine ⟨(humem t).mpr ht, ?_⟩
        rw [hval t ht]
        rfl
    · intro ht
      rw [hew]
      unfold lookupBar
      rw [keyedLookup_filterMap _ _ _ (unionIndex_nodup _) ((humem t).mpr ht)]
      exact hval t ht

set_option maxRecDepth 1000000 in
theorem C4_ew_composite_amended_witness :
    (([ewDemoA, ewDemoB].filter fun v => !v.isEmpty) ≠ []
      ∧ resync_index ([ewDemoA, ewDemoB].filter fun v => !v.isEmpty) = []
      ∧ (∃ df ∈ [ewDemoA, ewDemoB].filter fun v => !v.isEmpty, 0 ∈ seriesIndex df))
    ∧ lookupBar (ew_index_from_members [ewDemoA, ewDemoB] 100) 0 =
        some (avgBar (([ewDemoA, ewDemoB].filter fun v => !v.isEmpty).filterMap fun df =>
          lookupBar (normalize_ohlc df 100) 0)) :=
  ⟨⟨by decide, by decide, ⟨ewDemoA, by decide, by decide⟩⟩,
    ((C4_ew_composite_amended.2.2 [ewDemoA, ewDemoB] 100 0 (by decide) (by decide)).2
      ⟨ewDemoA, by decide, by decide⟩)⟩

/-- C5 counterexample: at the common timestamp one member's fields are all
exactly 0 (log gives −inf, the row mean stays −inf, exp gives 0.0) — the bar
is NOT dropped: it is emitted with every field equal to zero. -/
theorem C5_zero_member_counterexample :
    build_yahoo_composite_core [geoDemoZero, geoDemoFour] = [(0, ⟨0, 0, 0, 0⟩)]
    ∧ build_yahoo_composite_core [geoDemoZero, geoDemoFour] ≠ [] := by
  constructor
  · simp [build_yahoo_composite_core, resync_index, interIndex, seriesIndex, geoAt,
      geoField, lookupBar, keyedLookup, List.find?, List.filterMap, List.filter,
      geoDemoZero, geoDemoFour]
  · simp [build_yahoo_composite_core, resync_index, interIndex, seriesIndex, geoAt,
      geoField, lookupBar, keyedLookup, List.find?, List.filterMap, List.filter,
      geoDemoZero, geoDemoFour]

/-- C5 amended: per aligned bar and OHLC field the composite applies
`np.exp(np.log(values).mean())` with its IEEE-754 semantics — members with
negative values are skipped (log is NaN, skipped by the NaN-skipping row
mean), a member value of exactly zero makes the field 0 (log −inf, exp 0)
with the bar kept, the geometric-mean-of-positive-members formula holds
otherwise, and a field is undefined (bar dropped) only when every member's
value for it is negative (conjunct 1: the embedded field computation equals
that specification); and the composite output at every common timestamp is
exactly the per-bar field computation (conjunct 2). -/
theorem C5_geo_composite_amended :
    (∀ vals : List ℚ, geoField vals = geoFieldSpec vals)
    ∧ (∀ (data : List Series) (t : ℕ),
        (∀ df ∈ data, (seriesIndex df).Nodup) → data ≠ [] → t ∈ resync_index data →
        lookupR (build_yahoo_composite_core data) t = geoAt data t) := by
  constructor
  · intro vals
    unfold geoField geoFieldSpec
    by_cases hneg : ∀ v ∈ vals, v < 0
    · rw [if_pos hneg]
      have hfil : vals.filter (fun v => decide (0 ≤ v)) = [] := by
        rw [List.filter_eq_nil_iff]
        intro a ha
        simpa using not_le.mpr (hneg a ha)
      simp [hfil]
    · rw [if_neg hneg]
      have hne : vals.filter (fun v => decide (0 ≤ v)) ≠ [] := by
        push_neg at hneg
        rcases hneg with ⟨v, hv, hvge⟩
        intro h
        have hvm : v ∈ vals.filter (fun v => decide (0 ≤ v)) :=
          List.mem_filter.mpr ⟨hv, by simpa using hvge⟩
        rw [h] at hvm
        cases hvm
      by_cases h0 : 0 ∈ vals
      · rw [if_pos h0]
        have hany : ((vals.filter fun v => decide (0 ≤ v)).any fun v => decide (v = 0))
            = true := by
          rw [List.any_eq_true]
          exact ⟨0, List.mem_filter.mpr ⟨h0, by simp⟩, by simp⟩
        simp [List.isEmpty_iff, hne, hany]
      · rw [if_neg h0]
        have hany : ((vals.filter fun v => decide (0 ≤ v)).any fun v => decide (v = 0))
            = false := by
          rw [List.any_eq_false]
          intro a ha
          have hav : a ∈ vals := (List.mem_filter.mp ha).1
          simp only [decide_eq_true_eq]
          intro h
          exact h0 (h ▸ hav)
        have hpos : vals.filter (fun v => decide (0 ≤ v))
            = vals.filter (fun v => decide (0 < v)) := by
          apply List.filter_congr
          intro v hv
          have hv0 : v ≠ 0 := fun h => h0 (h ▸ hv)
          simp only [decide_eq_decide]
          constructor
          · intro h
            exact lt_of_le_of_ne h (Ne.symm hv0)
          · exact le_of_lt
        simp [List.isEmpty_iff, hne, hany, hpos]
        rcases List.exists_mem_of_ne_nil _ hne with ⟨v, hv⟩
        rcases List.mem_filter.mp hv with ⟨hvm, hvd⟩
        refine ⟨v, hvm, lt_of_le_of_ne (by simpa using hvd) fun h => h0 ?_⟩
        rw [h]
        exact hvm
  · intro data t hnodup hne ht
    unfold build_yahoo_composite_core lookupR
    rw [if_neg (by simp [hne])]
    exact keyedLookup_filterMap _ _ _ (resync_index_nodup hnodup) ht

theorem C5_geo_composite_amended_witness :
    ((∀ df ∈ [geoDemoFour], (seriesIndex df).Nodup) ∧ ([geoDemoFour] : List Series) ≠ []
      ∧ 0 ∈ resync_index [geoDemoFour])
    ∧ lookupR (build_yahoo_composite_core [geoDemoFour]) 0 = geoAt [geoDemoFour] 0
    ∧ geoAt [geoDemoFour] 0 = some ⟨4, 4, 4, 4⟩ :=
  ⟨⟨by decide, by decide, by decide⟩,
    C5_geo_composite_amended.2 [geoDemoFour] 0 (by decide) (by decide) (by decide),
    by
      simp [geoAt, geoField, geoDemoFour, lookupBar, keyedLookup, List.find?, seriesIndex]
      rw [Real.exp_log (by norm_num)]⟩
